import Mathlib

/-!
# Verification of the p2p-mesh-sharing swarm-replication engine

A shallow embedding, in Lean, of the core of the repository:

* the chunker (`src/model-serializer.ts`: `prepareModel`, `createChunks`,
  `calculateChecksum`, `verifyChunk`, `createBlobFromChunks`),
* the swarm manager (`SwarmManager`: `createSwarm`, `handlePiece`,
  `checkTimeouts`, `requestMoreChunks`, `requestChunksFromPeer`,
  `handleRequest`),
* the bitfield utilities (`src/utils.ts`: `hasBit`),
* the tracker announce handler (`server/index.js`: `handleAnnounce`).

JavaScript `Map` and `Set` are insertion-ordered; they are modelled as
association lists / lists, with update-in-place semantics for `Map.set` on an
existing key.  `Uint8Array` byte buffers are modelled as `List Nat`.  The
JavaScript number produced by the bitwise expression in `calculateChecksum`
is a signed 32-bit integer and is modelled as `Int` through an explicit
reduction modulo 2^32.  The floating-point progress percentage is modelled
as an exact rational.
-/

namespace P2PMesh

/-! ## Insertion-ordered maps and sets (JS `Map` / `Set`) -/

/-- Lookup in an insertion-ordered association list (JS `Map.get`). -/
def mapLookup {κ β : Type} [DecidableEq κ] (m : List (κ × β)) (k : κ) : Option β :=
  (m.find? (fun e => e.1 = k)).map (·.2)

/-- JS `Map.set`: replace the value in place if the key is present, otherwise
append the new entry at the end (insertion order). -/
def mapSet {κ β : Type} [DecidableEq κ] : List (κ × β) → κ → β → List (κ × β)
  | [], k, v => [(k, v)]
  | e :: rest, k, v => if e.1 = k then (k, v) :: rest else e :: mapSet rest k v

/-- JS `Map.has`. -/
def mapHasKey {κ β : Type} [DecidableEq κ] (m : List (κ × β)) (k : κ) : Bool :=
  (mapLookup m k).isSome

/-- JS `Map.delete`. -/
def mapErase {κ β : Type} [DecidableEq κ] (m : List (κ × β)) (k : κ) : List (κ × β) :=
  m.filter (fun e => !(e.1 = k : Bool))

/-- JS `Set.add` on a duplicate-free insertion-ordered list. -/
def setAdd (s : List Nat) (i : Nat) : List Nat :=
  if i ∈ s then s else s ++ [i]

/-! ## Chunker (`src/model-serializer.ts`) -/

/-- The constant `ModelSerializer.CHUNK_SIZE = 15 * 1024` (15 KiB pieces). -/
def CHUNK_SIZE : Nat := 15 * 1024

/-- A piece (`ModelChunk`): content id, zero-based index, redundant total,
raw bytes, checksum.  The checksum is the JS number returned by
`calculateChecksum`, a signed 32-bit integer. -/
structure ModelChunk where
  modelId : String
  index : Nat
  total : Nat
  data : List Nat
  checksum : Int
  deriving DecidableEq, Repr

/-- The metadata package (`ModelPackage`), restricted to the fields the swarm
engine reads; the placement transform and provenance strings are opaque to
every operation verified here and are omitted. -/
structure ModelPackage where
  id : String
  totalSize : Nat
  totalChunks : Nat
  deriving DecidableEq, Repr

/-- One step of the rolling checksum loop body:
`a = (a + data[i]) % MOD; b = (b + a) % MOD` with `MOD = 65521`. -/
def adlerStep (p : Nat × Nat) (x : Nat) : Nat × Nat :=
  let a := (p.1 + x) % 65521
  (a, (p.2 + a) % 65521)

/-- Reduce a natural number to the value of the corresponding JavaScript
signed 32-bit integer (the result type of the JS bitwise operators). -/
def toInt32 (n : Nat) : Int :=
  let m : Nat := n % 2 ^ 32
  if m < 2 ^ 31 then (m : Int) else (m : Int) - 2 ^ 32

/-- The function `ModelSerializer.calculateChecksum`: `a = 1, b = 0`, fold `adlerStep`
over the bytes, return `(b << 16) | a`.  Since `a < 65536` the bitwise-or is
addition of `b * 65536` and `a`; the JS `<<`/`|` operators work on signed
32-bit integers, hence the `toInt32` reduction. -/
def calculateChecksum (data : List Nat) : Int :=
  let p := data.foldl adlerStep (1, 0)
  toInt32 (p.2 * 65536 + p.1)

/-- The function `ModelSerializer.verifyChunk`: recompute and compare. -/
def verifyChunk (chunk : ModelChunk) : Bool :=
  calculateChecksum chunk.data = chunk.checksum

/-- The function `ModelSerializer.createChunks`: for `i = 0 .. totalChunks - 1` slice
`data[i * CHUNK_SIZE, min((i+1) * CHUNK_SIZE, len))` and attach the checksum
(`slice start end` is `take (end - start)` after `drop start`; `take` clamps
exactly as `slice` does). -/
def createChunks (modelId : String) (data : List Nat) (totalChunks : Nat) :
    List ModelChunk :=
  (List.range totalChunks).map (fun i =>
    { modelId := modelId
      index := i
      total := totalChunks
      data := (data.drop (i * CHUNK_SIZE)).take CHUNK_SIZE
      checksum := calculateChecksum ((data.drop (i * CHUNK_SIZE)).take CHUNK_SIZE) })

/-- The function `ModelSerializer.prepareModel`, after the artifact bytes have been
fetched: `totalChunks = ceil(len / CHUNK_SIZE)`, build the package and the
chunk list.  The function body contains no emptiness check: it returns a
package for any byte list, including the empty one. -/
def prepareModel (modelId : String) (modelData : List Nat) :
    ModelPackage × List ModelChunk :=
  let totalChunks := (modelData.length + CHUNK_SIZE - 1) / CHUNK_SIZE
  ({ id := modelId, totalSize := modelData.length, totalChunks := totalChunks },
   createChunks modelId modelData totalChunks)

/-- The function `ModelSerializer.createBlobFromChunks`, as the byte content of the blob it
builds: sort the chunks by ascending index (JS `sort` is stable;
`List.mergeSort` is the stable sort), then concatenate the data fields (the
source preallocates `totalSize = Σ byteLength` and copies each chunk at its
running offset, which is exactly concatenation).  No index or length
validation of any kind is performed. -/
def createBlobFromChunks (chunks : List ModelChunk) : List Nat :=
  let sortedChunks := chunks.mergeSort (fun a b => a.index ≤ b.index)
  (sortedChunks.map (·.data)).flatten

/-! ## Bitfield utilities (`src/utils.ts`) -/

/-- The utility `hasBit(bitfield, index)`: test bit `index % 8` (big-endian within the
byte) of byte `index / 8`.  Reading past the end of a `Uint8Array` yields
`undefined`, which the JS bitwise `&` coerces to `0`, hence `getD _ 0`. -/
def hasBit (bitfield : List Nat) (index : Nat) : Bool :=
  let byteIndex := index / 8
  let bitIndex := index % 8
  decide ((bitfield.getD byteIndex 0) &&& (1 <<< (7 - bitIndex)) ≠ 0)

/-! ## Swarm manager (`SwarmManager`) -/

/-- The constant `P2P_CONFIG.CHUNKS_PER_REQUEST` (the pipelining budget K). -/
def CHUNKS_PER_REQUEST : Nat := 5

/-- The constant `P2P_CONFIG.REQUEST_TIMEOUT` in milliseconds. -/
def REQUEST_TIMEOUT : Nat := 30000

/-- Per-content transfer state (`Swarm` in `types.ts`).  `ownChunks` is a JS
`Set` (duplicate-free, insertion-ordered list), `requestedChunks` and
`receivedChunks` are JS `Map`s. -/
structure Swarm where
  modelId : String
  metadata : Option ModelPackage
  ownChunks : List Nat
  requestedChunks : List (Nat × String)
  receivedChunks : List (Nat × ModelChunk)
  totalChunks : Nat
  startTime : Option Nat
  deriving DecidableEq, Repr

/-- The `SwarmManager`'s only field: the `swarms` map. -/
structure SwarmMgr where
  swarms : List (String × Swarm)
  deriving DecidableEq, Repr

/-- The action intents returned to the coordinator (`SwarmAction`).  The
`progress` payload of `download_progress` is the JS number
`ownChunks.size / totalChunks * 100`, modelled as an exact rational. -/
inductive SwarmAction where
  | request_chunk (peerId : String) (modelId : String) (chunkIndex : Nat)
  | broadcast_have (modelId : String) (chunkIndex : Nat)
  | send_piece (peerId : String) (modelId : String) (chunk : ModelChunk)
  | download_progress (modelId : String) (progress : ℚ)
  | download_complete (modelId : String)
  deriving DecidableEq, Repr

/-- The map of known peer bitfields passed into the manager:
`peerId → (modelId → bitfield)`. -/
abbrev PeerBitfields := List (String × List (String × List Nat))

/-- An inbound `piece` frame as destructured by `handlePiece`
(`{ modelId, chunkIndex, data, checksum }`); `data` is held here as the
decoded bytes (the source applies `base64ToArrayBuffer`, a bijection on
byte strings, before any use). -/
structure PieceMsg where
  modelId : String
  chunkIndex : Nat
  data : List Nat
  checksum : Int
  deriving DecidableEq, Repr

/-- An inbound `request` frame as destructured by `handleRequest`. -/
structure RequestMsg where
  modelId : String
  chunkIndex : Nat
  deriving DecidableEq, Repr

/-- The operation `SwarmManager.createSwarm`.  `isSeeder = chunks.length > 0`;
`ownChunks = Set(chunks.map((_, idx) => idx))` is the list of array
positions `0 .. chunks.length - 1`; `receivedChunks = Map(chunks.map(c =>
[c.index, c]))` keys by the chunks' own `index` fields. -/
def createSwarm (mgr : SwarmMgr) (modelId : String) (metadata : ModelPackage)
    (chunks : List ModelChunk) (now : Nat) : SwarmMgr :=
  { mgr with
    swarms :=
      mapSet mgr.swarms modelId
        ({ modelId := modelId
           metadata := some metadata
           ownChunks := List.range chunks.length
           requestedChunks := []
           receivedChunks := chunks.foldl (fun m c => mapSet m c.index c) []
           totalChunks :=
             if chunks.length > 0 then chunks.length else metadata.totalChunks
           startTime := if chunks.length > 0 then none else some now } : Swarm) }

/-- The sweep `SwarmManager.checkTimeouts`: every requested entry whose age test
`swarm.startTime && now - swarm.startTime > REQUEST_TIMEOUT` passes is
removed.  The test does not depend on the entry, so either all entries are
removed or none; JS truthiness makes a `startTime` of `0` behave as absent,
and the JS subtraction is negative (hence not `> REQUEST_TIMEOUT`) when
`now < startTime`, exactly as truncated `Nat` subtraction. -/
def checkTimeouts (swarm : Swarm) (now : Nat) : Swarm :=
  match swarm.startTime with
  | none => swarm
  | some t =>
      if t ≠ 0 ∧ now - t > REQUEST_TIMEOUT then
        { swarm with requestedChunks := [] }
      else swarm

/-- The chunk indices still to fetch:
`0 ≤ i < totalChunks` with `i` neither owned nor already requested. -/
def neededOf (swarm : Swarm) : List Nat :=
  (List.range swarm.totalChunks).filter
    (fun i => !(i ∈ swarm.ownChunks : Bool) && !(mapHasKey swarm.requestedChunks i))

/-- The rarity of chunk `i`: the number of peers whose stored bitfield for
`modelId` has bit `i` set (peers with no bitfield for `modelId` count 0). -/
def rarityOf (pbs : PeerBitfields) (modelId : String) (i : Nat) : Nat :=
  (pbs.filter (fun pb =>
    match mapLookup pb.2 modelId with
    | some bitfield => hasBit bitfield i
    | none => false)).length

/-- The count `reqCountFor req p = |{index : req[index] = p}|`, the source's
`Array.from(requestedChunks.values()).filter(q => q === p).length`. -/
def reqCountFor (req : List (Nat × String)) (p : String) : Nat :=
  (req.filter (fun e => e.2 = p)).length

/-- The inner `for (const chunkIdx of needed)` loop of `requestMoreChunks`
for one peer: walk the rarity-sorted needed list; stop (`break`) as soon as
`peerRequests + requestedThisRound ≥ CHUNKS_PER_REQUEST`; emit a
`request_chunk` and record `requested[chunkIdx] = peerId` whenever the peer
has the bit and the index is still unrequested. -/
def rmcInner (modelId p : String) (bitfield : List Nat) (pr : Nat) :
    List Nat → Nat → List (Nat × String) → List (Nat × String) × List SwarmAction
  | [], _, req => (req, [])
  | i :: rest, r, req =>
    if pr + r ≥ CHUNKS_PER_REQUEST then (req, [])
    else if hasBit bitfield i && !(mapHasKey req i) then
      ((rmcInner modelId p bitfield pr rest (r + 1) (mapSet req i p)).1,
       SwarmAction.request_chunk p modelId i ::
         (rmcInner modelId p bitfield pr rest (r + 1) (mapSet req i p)).2)
    else rmcInner modelId p bitfield pr rest r req

/-- The outer `peerBitfields.forEach` loop of `requestMoreChunks`: skip a
peer with no bitfield for this content or with `peerRequests ≥
CHUNKS_PER_REQUEST` in flight; otherwise run the inner loop, threading the
`requestedChunks` map and appending the emitted actions in iteration
order. -/
def rmcPeers (modelId : String) (sorted : List Nat) :
    PeerBitfields → List (Nat × String) → List (Nat × String) × List SwarmAction
  | [], req => (req, [])
  | (p, bitfields) :: rest, req =>
    match mapLookup bitfields modelId with
    | none => rmcPeers modelId sorted rest req
    | some bitfield =>
      if reqCountFor req p ≥ CHUNKS_PER_REQUEST then rmcPeers modelId sorted rest req
      else
        ((rmcPeers modelId sorted rest
            (rmcInner modelId p bitfield (reqCountFor req p) sorted 0 req).1).1,
         (rmcInner modelId p bitfield (reqCountFor req p) sorted 0 req).2 ++
           (rmcPeers modelId sorted rest
             (rmcInner modelId p bitfield (reqCountFor req p) sorted 0 req).1).2)

/-- The operation `SwarmManager.requestMoreChunks`.  Sorting uses the comparator
`rarity(a) - rarity(b)`; JS `Array.sort` is stable, as is
`List.mergeSort`.  (`rarity.get(i) || 0` is the count itself: the map is
populated for every needed index.)  The mutated swarm object is written
back in place, preserving the registry's insertion order. -/
def requestMoreChunks (mgr : SwarmMgr) (modelId : String) (pbs : PeerBitfields) :
    SwarmMgr × List SwarmAction :=
  match mapLookup mgr.swarms modelId with
  | none => (mgr, [])
  | some swarm =>
    if (neededOf swarm).isEmpty then (mgr, [])
    else
      ({ swarms := mapSet mgr.swarms modelId
          { swarm with requestedChunks :=
              (rmcPeers modelId ((neededOf swarm).mergeSort
                  (fun a b => rarityOf pbs modelId a ≤ rarityOf pbs modelId b))
                pbs swarm.requestedChunks).1 } },
       (rmcPeers modelId ((neededOf swarm).mergeSort
           (fun a b => rarityOf pbs modelId a ≤ rarityOf pbs modelId b))
         pbs swarm.requestedChunks).2)

/-- The three `handlePiece` success-path mutations on the swarm: store the
verified chunk into `receivedChunks`, add the index to `ownChunks`, clear
`requested[index]`. -/
def storePiece (swarm : Swarm) (msg : PieceMsg) : Swarm :=
  { swarm with
    receivedChunks := mapSet swarm.receivedChunks msg.chunkIndex
      ⟨msg.modelId, msg.chunkIndex, swarm.totalChunks, msg.data, msg.checksum⟩
    ownChunks := setAdd swarm.ownChunks msg.chunkIndex
    requestedChunks := mapErase swarm.requestedChunks msg.chunkIndex }

/-- The operation `SwarmManager.handlePiece`.  Build the chunk from the frame (the `total`
field is taken from the swarm); on checksum failure clear
`requested[index]` and return no actions; on success apply `storePiece`,
emit `broadcast_have` and `download_progress` (computed from the stored
swarm), run `checkTimeouts`, then either `download_complete` or the actions
of `requestMoreChunks` on the updated manager. -/
def handlePiece (mgr : SwarmMgr) (_peerId : String) (msg : PieceMsg)
    (pbs : PeerBitfields) (now : Nat) : SwarmMgr × List SwarmAction :=
  match mapLookup mgr.swarms msg.modelId with
  | none => (mgr, [])
  | some swarm =>
    if !(verifyChunk ⟨msg.modelId, msg.chunkIndex, swarm.totalChunks, msg.data,
        msg.checksum⟩) then
      ({ swarms := mapSet mgr.swarms msg.modelId
          { swarm with requestedChunks := mapErase swarm.requestedChunks msg.chunkIndex } },
       [])
    else
      if (checkTimeouts (storePiece swarm msg) now).ownChunks.length =
          (checkTimeouts (storePiece swarm msg) now).totalChunks then
        (⟨mapSet mgr.swarms msg.modelId (checkTimeouts (storePiece swarm msg) now)⟩,
         [SwarmAction.broadcast_have msg.modelId msg.chunkIndex,
          SwarmAction.download_progress msg.modelId
            (((storePiece swarm msg).ownChunks.length : ℚ) /
              ((storePiece swarm msg).totalChunks : ℚ) * 100),
          SwarmAction.download_complete msg.modelId])
      else
        ((requestMoreChunks
            ⟨mapSet mgr.swarms msg.modelId (checkTimeouts (storePiece swarm msg) now)⟩
            msg.modelId pbs).1,
         SwarmAction.broadcast_have msg.modelId msg.chunkIndex ::
           SwarmAction.download_progress msg.modelId
             (((storePiece swarm msg).ownChunks.length : ℚ) /
               ((storePiece swarm msg).totalChunks : ℚ) * 100) ::
           (requestMoreChunks
             ⟨mapSet mgr.swarms msg.modelId (checkTimeouts (storePiece swarm msg) now)⟩
             msg.modelId pbs).2)

/-- The operation `SwarmManager.requestChunksFromPeer`: emit one `request_chunk` for the
first index the peer has that is neither owned nor in flight (the `for`
loop `break`s after the first hit), recording it in `requestedChunks`. -/
def requestChunksFromPeer (mgr : SwarmMgr) (peerId modelId : String)
    (peerBitfield : List Nat) : SwarmMgr × List SwarmAction :=
  match mapLookup mgr.swarms modelId with
  | none => (mgr, [])
  | some swarm =>
    match (List.range swarm.totalChunks).find? (fun i =>
        !(i ∈ swarm.ownChunks : Bool) && !(mapHasKey swarm.requestedChunks i)
          && hasBit peerBitfield i) with
    | none => (mgr, [])
    | some i =>
      ({ swarms := mapSet mgr.swarms modelId
          { swarm with requestedChunks := mapSet swarm.requestedChunks i peerId } },
       [SwarmAction.request_chunk peerId modelId i])

/-- The operation `SwarmManager.handleRequest`: return `send_piece` when the requested
index is owned and stored, otherwise `null`.  The manager state is not
modified. -/
def handleRequest (mgr : SwarmMgr) (peerId : String) (msg : RequestMsg) :
    Option SwarmAction :=
  match mapLookup mgr.swarms msg.modelId with
  | none => none
  | some swarm =>
    if !(msg.chunkIndex ∈ swarm.ownChunks : Bool) then none
    else
      match mapLookup swarm.receivedChunks msg.chunkIndex with
      | none => none
      | some chunk => some (SwarmAction.send_piece peerId msg.modelId chunk)

/-! ## Tracker (`server/index.js`, first implementation: the `announce` /
`announce-response` / `peer-joined-swarm` variant) -/

/-- A swarm-membership record as stored by `handleAnnounce`.  `chunks` keeps
the raw announced list (the source wraps it in a `Set`; no verified claim
reads it). -/
structure PeerRecord where
  peerId : String
  complete : Bool
  chunks : List Nat
  lastSeen : Nat
  uploaded : Nat
  downloaded : Nat
  deriving DecidableEq, Repr

/-- The fields `handleAnnounce` destructures from an announce message, with
the `|| false` / `|| 0` defaulting already applied. -/
structure AnnounceMsg where
  modelId : String
  complete : Bool
  chunks : List Nat
  uploaded : Nat
  downloaded : Nat
  deriving DecidableEq, Repr

/-- JS `Set.add` for string sets (client `models`). -/
def strSetAdd (s : List String) (x : String) : List String :=
  if x ∈ s then s else s ++ [x]

/-- The tracker's mutable state touched by `handleAnnounce`: the
`swarms` rooms map and the per-client `models` sets. -/
structure TrackerState where
  swarms : List (String × List (String × PeerRecord))
  clientModels : List (String × List String)
  deriving DecidableEq, Repr

/-- The handler `handleAnnounce(ws, clientInfo, message)`, state effect only (the
`announce-response` reply and `peer-joined-swarm` broadcast read the state
but do not change it).  A falsy (empty) `modelId` is rejected; otherwise the
room is created if absent and the sender's record is upserted with
`lastSeen = now`. -/
def handleAnnounce (st : TrackerState) (senderId : String) (msg : AnnounceMsg)
    (now : Nat) : TrackerState :=
  if msg.modelId = "" then st
  else
    let room := (mapLookup st.swarms msg.modelId).getD []
    let room' := mapSet room senderId
      { peerId := senderId
        complete := msg.complete
        chunks := msg.chunks
        lastSeen := now
        uploaded := msg.uploaded
        downloaded := msg.downloaded }
    { swarms := mapSet st.swarms msg.modelId room'
      clientModels := mapSet st.clientModels senderId
        (strSetAdd ((mapLookup st.clientModels senderId).getD []) msg.modelId) }

/-- The room state a re-announce must leave intact: for every room, the
participant list in order with each participant's completeness flag. -/
def roomView (st : TrackerState) : List (String × List (String × Bool)) :=
  st.swarms.map (fun r => (r.1, r.2.map (fun e => (e.1, e.2.complete))))

/-! ## Reachability of swarm-manager states

`handleRequest` never modifies the manager state (proved below), so it is
omitted from the step relations. -/

/-- States reachable from the empty manager by any sequence of operations
with arbitrary arguments and arbitrary inbound frames. -/
inductive Reachable : SwarmMgr → Prop
  | init : Reachable ⟨[]⟩
  | create {mgr} (modelId : String) (metadata : ModelPackage)
      (chunks : List ModelChunk) (now : Nat) (h : Reachable mgr) :
      Reachable (createSwarm mgr modelId metadata chunks now)
  | piece {mgr} (peerId : String) (msg : PieceMsg) (pbs : PeerBitfields)
      (now : Nat) (h : Reachable mgr) :
      Reachable (handlePiece mgr peerId msg pbs now).1
  | more {mgr} (modelId : String) (pbs : PeerBitfields) (h : Reachable mgr) :
      Reachable (requestMoreChunks mgr modelId pbs).1
  | bootstrap {mgr} (peerId modelId : String) (bitfield : List Nat)
      (h : Reachable mgr) :
      Reachable (requestChunksFromPeer mgr peerId modelId bitfield).1

/-- Reachability without the single-request bootstrap
`requestChunksFromPeer`. -/
inductive ReachableNoBootstrap : SwarmMgr → Prop
  | init : ReachableNoBootstrap ⟨[]⟩
  | create {mgr} (modelId : String) (metadata : ModelPackage)
      (chunks : List ModelChunk) (now : Nat) (h : ReachableNoBootstrap mgr) :
      ReachableNoBootstrap (createSwarm mgr modelId metadata chunks now)
  | piece {mgr} (peerId : String) (msg : PieceMsg) (pbs : PeerBitfields)
      (now : Nat) (h : ReachableNoBootstrap mgr) :
      ReachableNoBootstrap (handlePiece mgr peerId msg pbs now).1
  | more {mgr} (modelId : String) (pbs : PeerBitfields)
      (h : ReachableNoBootstrap mgr) :
      ReachableNoBootstrap (requestMoreChunks mgr modelId pbs).1

/-- Reachability with well-formed inputs: `createSwarm` is fed chunk lists
whose `index` fields are in range of the list length (true of every chunk
list the chunker produces), and inbound piece frames carry an index below
the target swarm's piece count. -/
inductive ReachableChecked : SwarmMgr → Prop
  | init : ReachableChecked ⟨[]⟩
  | create {mgr} (modelId : String) (metadata : ModelPackage)
      (chunks : List ModelChunk) (now : Nat)
      (hidx : ∀ c ∈ chunks, c.index < chunks.length)
      (h : ReachableChecked mgr) :
      ReachableChecked (createSwarm mgr modelId metadata chunks now)
  | piece {mgr} (peerId : String) (msg : PieceMsg) (pbs : PeerBitfields)
      (now : Nat)
      (hrange : ∀ s, mapLookup mgr.swarms msg.modelId = some s →
        msg.chunkIndex < s.totalChunks)
      (h : ReachableChecked mgr) :
      ReachableChecked (handlePiece mgr peerId msg pbs now).1
  | more {mgr} (modelId : String) (pbs : PeerBitfields)
      (h : ReachableChecked mgr) :
      ReachableChecked (requestMoreChunks mgr modelId pbs).1
  | bootstrap {mgr} (peerId modelId : String) (bitfield : List Nat)
      (h : ReachableChecked mgr) :
      ReachableChecked (requestChunksFromPeer mgr peerId modelId bitfield).1

/-! ## Invariant and view definitions used in the claims -/

/-- The count `|{index : requested[index] = p}|` for the swarm registered under
`modelId` (0 when there is no such swarm). -/
def swarmReqCount (mgr : SwarmMgr) (modelId p : String) : Nat :=
  match mapLookup mgr.swarms modelId with
  | some s => reqCountFor s.requestedChunks p
  | none => 0

/-- Invariant: `owned ⊆ [0, totalChunks)`. -/
def ownedInRange (s : Swarm) : Prop :=
  ∀ i ∈ s.ownChunks, i < s.totalChunks

/-- Invariant: `owned ∩ keys(requested) = ∅`. -/
def ownedReqDisjoint (s : Swarm) : Prop :=
  ∀ i ∈ s.ownChunks, mapHasKey s.requestedChunks i = false

/-- Invariant: every index present in `received` is in `owned`. -/
def receivedSubOwned (s : Swarm) : Prop :=
  ∀ e ∈ s.receivedChunks, e.1 ∈ s.ownChunks

/-- The conjunction of the three §3 swarm invariants. -/
def swarmWF (s : Swarm) : Prop :=
  ownedInRange s ∧ ownedReqDisjoint s ∧ receivedSubOwned s

/-- Every registered swarm satisfies the swarm invariants. -/
def mgrWF (mgr : SwarmMgr) : Prop :=
  ∀ mid s, mapLookup mgr.swarms mid = some s → swarmWF s

/-- The ordering "ascending rarity, ties broken by ascending index". -/
def lexLe (rar : Nat → Nat) (a b : Nat) : Prop :=
  rar a < rar b ∨ (rar a = rar b ∧ a ≤ b)

/-- The chunk index of a `request_chunk` action addressed to peer `p`. -/
def actionIndexFor (p : String) : SwarmAction → Option Nat
  | SwarmAction.request_chunk q _ i => if q = p then some i else none
  | _ => none

/-- The reference checksum packing from the specification text, on natural
numbers: run the two modular sums, return `(b <<< 16) ||| a`. -/
def checksumSpecRef (data : List Nat) : Nat :=
  let p := data.foldl adlerStep (1, 0)
  p.2 <<< 16 ||| p.1

/-! ## Concrete states for the counterexamples -/

/-- One bootstrap request against peer `P` for content `m`. -/
def bootstrapStep (m : SwarmMgr) : SwarmMgr :=
  (requestChunksFromPeer m "P" "m" [255]).1

/-- Six consecutive bootstrap requests on a fresh 6-piece leecher swarm. -/
def mgrBudget : SwarmMgr :=
  bootstrapStep (bootstrapStep (bootstrapStep (bootstrapStep (bootstrapStep
    (bootstrapStep (createSwarm ⟨[]⟩ "m" ⟨"m", 90, 6⟩ [] 0))))))

/-- A fresh 1-piece leecher swarm fed a verifying piece frame with the
out-of-range index 5 (the checksum of the empty byte string is 1). -/
def mgrRange : SwarmMgr :=
  (handlePiece (createSwarm ⟨[]⟩ "m" ⟨"m", 1, 1⟩ [] 0) "P"
    ⟨"m", 5, [], 1⟩ [] 0).1

/-- The swarm stored in `mgrRange`. -/
def swarmRange : Swarm :=
  { modelId := "m"
    metadata := some ⟨"m", 1, 1⟩
    ownChunks := [5]
    requestedChunks := []
    receivedChunks := [(5, ⟨"m", 5, 1, [], 1⟩)]
    totalChunks := 1
    startTime := some 0 }

/-- A fresh 2-piece leecher swarm, target of the progress counterexample. -/
def mgrProgress : SwarmMgr := createSwarm ⟨[]⟩ "m" ⟨"m", 2, 2⟩ [] 0

/-- A verifying piece frame for index 0 of `mgrProgress`
(`calculateChecksum [0] = 65537`). -/
def msgProgress : PieceMsg := ⟨"m", 0, [0], 65537⟩

/-! ## Helper lemmas: the map model -/

theorem mapLookup_cons {κ β : Type} [DecidableEq κ] (e : κ × β) (rest : List (κ × β))
    (k : κ) :
    mapLookup (e :: rest) k = if e.1 = k then some e.2 else mapLookup rest k := by
  by_cases h : e.1 = k
  · simp [mapLookup, List.find?_cons_of_pos, h]
  · simp [mapLookup, List.find?_cons_of_neg, h]

theorem mapLookup_mapSet_self {κ β : Type} [DecidableEq κ] (m : List (κ × β))
    (k : κ) (v : β) : mapLookup (mapSet m k v) k = some v := by
  induction m with
  | nil => simp [mapSet, mapLookup_cons, mapLookup]
  | cons e rest ih =>
    by_cases h : e.1 = k
    · simp [mapSet, h, mapLookup_cons]
    · simp [mapSet, h, mapLookup_cons, ih]

theorem mapLookup_mapSet_ne {κ β : Type} [DecidableEq κ] (m : List (κ × β))
    (k k' : κ) (v : β) (h : k' ≠ k) :
    mapLookup (mapSet m k v) k' = mapLookup m k' := by
  induction m with
  | nil => simp [mapSet, mapLookup_cons, mapLookup, Ne.symm h]
  | cons e rest ih =>
    by_cases he : e.1 = k
    · simp [mapSet, he, mapLookup_cons, Ne.symm h]
    · simp [mapSet, he, mapLookup_cons, ih]

theorem mapSet_mapSet_same {κ β : Type} [DecidableEq κ] (m : List (κ × β))
    (k : κ) (v w : β) : mapSet (mapSet m k v) k w = mapSet m k w := by
  induction m with
  | nil => simp [mapSet]
  | cons e rest ih =>
    by_cases h : e.1 = k
    · simp [mapSet, h]
    · simp [mapSet, h, ih]

theorem map_snd_mapSet {κ β γ : Type} [DecidableEq κ] (f : β → γ)
    (m : List (κ × β)) (k : κ) (v : β) :
    (mapSet m k v).map (fun e => (e.1, f e.2)) =
      mapSet (m.map (fun e => (e.1, f e.2))) k (f v) := by
  induction m with
  | nil => simp [mapSet]
  | cons e rest ih =>
    by_cases h : e.1 = k
    · simp [mapSet, h]
    · simp [mapSet, h, ih]

theorem mapHasKey_false_iff {κ β : Type} [DecidableEq κ] (m : List (κ × β))
    (k : κ) : mapHasKey m k = false ↔ mapLookup m k = none := by
  unfold mapHasKey
  cases mapLookup m k <;> simp

theorem mapSet_of_not_hasKey {κ β : Type} [DecidableEq κ] (m : List (κ × β))
    (k : κ) (v : β) (h : mapHasKey m k = false) : mapSet m k v = m ++ [(k, v)] := by
  induction m with
  | nil => simp [mapSet]
  | cons e rest ih =>
    rw [mapHasKey_false_iff, mapLookup_cons] at h
    by_cases he : e.1 = k
    · simp [he] at h
    · simp only [he, if_false] at h
      simp [mapSet, he, ih ((mapHasKey_false_iff rest k).mpr h)]

theorem mapLookup_append_left {κ β : Type} [DecidableEq κ] (m m' : List (κ × β))
    (k : κ) (v : β) (h : mapLookup m k = some v) :
    mapLookup (m ++ m') k = some v := by
  induction m with
  | nil => simp [mapLookup] at h
  | cons e rest ih =>
    rw [mapLookup_cons] at h
    by_cases he : e.1 = k
    · simp only [he, if_true] at h
      simp [List.cons_append, mapLookup_cons, he, h]
    · simp only [he, if_false] at h
      simp [List.cons_append, mapLookup_cons, he, ih h]

theorem mapLookup_mapSet_of_some {κ β : Type} [DecidableEq κ] (m : List (κ × β))
    (i k : κ) (p v : β) (hne : mapHasKey m i = false)
    (h : mapLookup m k = some v) : mapLookup (mapSet m i p) k = some v := by
  rcases eq_or_ne k i with rfl | hki
  · rw [mapHasKey_false_iff] at hne; rw [hne] at h; cases h
  · rw [mapLookup_mapSet_ne m i k p hki]; exact h

theorem mapHasKey_mapSet {κ β : Type} [DecidableEq κ] (m : List (κ × β))
    (i k : κ) (v : β) :
    mapHasKey (mapSet m i v) k = (decide (k = i) || mapHasKey m k) := by
  rcases eq_or_ne k i with rfl | hki
  · simp [mapHasKey, mapLookup_mapSet_self]
  · simp [mapHasKey, mapLookup_mapSet_ne m i k v hki, hki]

theorem mapLookup_of_mem_nodup {κ β : Type} [DecidableEq κ] {m : List (κ × β)}
    {k : κ} {v : β} (hmem : (k, v) ∈ m) (hnd : (m.map Prod.fst).Nodup) :
    mapLookup m k = some v := by
  induction m with
  | nil => cases hmem
  | cons e rest ih =>
    simp only [List.map_cons, List.nodup_cons] at hnd
    rcases List.mem_cons.1 hmem with rfl | hmem'
    · simp [mapLookup_cons]
    · have hk : e.1 ≠ k := by
        intro he
        exact hnd.1 (he ▸ (List.mem_map.2 ⟨(k, v), hmem', rfl⟩))
      simp [mapLookup_cons, hk, ih hmem' hnd.2]

/-! ## Helper lemmas: counting requests -/

theorem reqCountFor_append_single (m : List (Nat × String)) (k : Nat) (p q : String) :
    reqCountFor (m ++ [(k, p)]) q =
      reqCountFor m q + (if p = q then 1 else 0) := by
  by_cases h : p = q <;> simp [reqCountFor, List.filter_append, h]

theorem reqCountFor_filter_le (m : List (Nat × String)) (f : Nat × String → Bool)
    (q : String) : reqCountFor (m.filter f) q ≤ reqCountFor m q := by
  simp only [reqCountFor]
  rw [List.filter_comm]
  exact List.Sublist.length_le (List.filter_sublist _)

theorem reqCountFor_mapErase_le (m : List (Nat × String)) (k : Nat) (q : String) :
    reqCountFor (mapErase m k) q ≤ reqCountFor m q :=
  reqCountFor_filter_le m _ q

/-! ## The empty artifact (C8) -/

/-- C8 counterexample: `prepareModel` applied to the empty byte string
does not reject it: it returns a package with `totalChunks = 0` and an empty
piece list. -/
theorem prepareModel_empty_returns :
    prepareModel "m" [] = ({ id := "m", totalSize := 0, totalChunks := 0 }, []) :=
  rfl

/-- C8 amended: For every content id, `prepareModel` accepts the empty
artifact and produces a package with `totalSize = 0`, `totalChunks = 0`, and
no pieces; no rejection occurs (the only failure path in the source is an
unrelated fetch error). -/
theorem prepareModel_empty_accepts (modelId : String) :
    prepareModel modelId [] =
      ({ id := modelId, totalSize := 0, totalChunks := 0 }, []) :=
  rfl

/-! ## The checksum (C6) -/

theorem adler_fst_lt (l : List Nat) (p : Nat × Nat) (hp : p.1 < 65521) :
    (l.foldl adlerStep p).1 < 65521 := by
  induction l generalizing p with
  | nil => exact hp
  | cons x rest ih =>
    exact ih _ (Nat.mod_lt _ (by norm_num))

/-- C6 counterexample: On 50 bytes of `0xFF` the value computed by
`calculateChecksum` is the (negative) signed 32-bit reading of the bit
pattern, not the nonnegative number `(b <<< 16) ||| a` of the reference
definition. -/
theorem checksum_ne_reference :
    calculateChecksum (List.replicate 50 255) ≠
      ((checksumSpecRef (List.replicate 50 255) : Nat) : Int) := by
  decide

/-- C6 amended: For every byte sequence the checksum computed by the
chunker equals the reference value `(b <<< 16) ||| a` reduced to a signed
32-bit integer (the JS bitwise operators work on `Int32`, so the two agree
exactly when `b < 2^15`); and `verifyChunk` returns `true` for every piece
produced by the chunker. -/
theorem checksum_matches_reference_mod32 :
    (∀ data : List Nat, calculateChecksum data = toInt32 (checksumSpecRef data)) ∧
    (∀ (modelId : String) (data : List Nat) (total : Nat),
      ∀ c ∈ createChunks modelId data total, verifyChunk c = true) := by
  constructor
  · intro data
    have ha : (data.foldl adlerStep (1, 0)).1 < 65521 :=
      adler_fst_lt data (1, 0) (by norm_num)
    have ha' : (data.foldl adlerStep (1, 0)).1 < 2 ^ 16 :=
      ha.trans (by norm_num)
    show toInt32 ((data.foldl adlerStep (1, 0)).2 * 65536 +
        (data.foldl adlerStep (1, 0)).1) =
      toInt32 ((data.foldl adlerStep (1, 0)).2 <<< 16 ||| (data.foldl adlerStep (1, 0)).1)
    congr 1
    rw [Nat.shiftLeft_eq, Nat.mul_comm _ (2 ^ 16),
      show (65536 : Nat) = 2 ^ 16 from rfl, Nat.mul_comm _ (2 ^ 16)]
    exact Nat.mul_add_lt_is_or ha' _
  · intro modelId data total c hc
    simp only [createChunks, List.mem_map, List.mem_range] at hc
    obtain ⟨i, -, rfl⟩ := hc
    simp [verifyChunk]

/-- Witness for the amended C6: a concrete piece built by `createChunks`
verifies, and its checksum is the reduced reference value. -/
theorem checksum_matches_reference_mod32_w :
    verifyChunk ⟨"m", 0, 1, [1, 2, 3],
        calculateChecksum ((([1, 2, 3] : List Nat).drop (0 * CHUNK_SIZE)).take CHUNK_SIZE)⟩
      = true ∧
    calculateChecksum [9] = toInt32 (checksumSpecRef [9]) :=
  ⟨checksum_matches_reference_mod32.2 "m" [1, 2, 3] 1 _ (by decide),
   checksum_matches_reference_mod32.1 [9]⟩

/-! ## Reassembly does not validate (C7) -/

/-- C7 counterexample: A piece list missing index 0 (its only piece has
index 1 and a wrong length for either position) is reassembled without any
failure: `createBlobFromChunks` returns that piece's bytes. -/
theorem assemble_missing_index_returns :
    createBlobFromChunks [⟨"m", 1, 2, [7], 0⟩] = [7] := by
  simp [createBlobFromChunks, List.mergeSort_singleton]

/-- C7 amended: `createBlobFromChunks` performs no validation at all:
for every piece list it returns the concatenation, in index-sorted order, of
exactly the bytes provided — its length is the sum of the given pieces'
lengths — so a missing index or a wrong-length piece yields a silently
wrong byte string instead of a failure. -/
theorem assemble_never_fails (chunks : List ModelChunk) :
    (createBlobFromChunks chunks).length =
      (chunks.map (fun c => c.data.length)).sum := by
  unfold createBlobFromChunks
  rw [List.length_flatten, List.map_map]
  exact ((chunks.mergeSort_perm _).map (fun c => c.data.length)).sum_eq

/-! ## Operations on unknown content ids (C10) -/

/-- C10: When no swarm is registered for a content id, `handlePiece`,
`requestMoreChunks` and `requestChunksFromPeer` return the manager unchanged
with an empty action list, and `handleRequest` returns `null` (and, being
read-only, also leaves the manager unchanged). -/
theorem unknown_content_noop (mgr : SwarmMgr) (modelId : String)
    (h : mapLookup mgr.swarms modelId = none) :
    (∀ (p : String) (idx : Nat) (data : List Nat) (ck : Int)
        (pbs : PeerBitfields) (now : Nat),
      handlePiece mgr p ⟨modelId, idx, data, ck⟩ pbs now = (mgr, [])) ∧
    (∀ pbs : PeerBitfields, requestMoreChunks mgr modelId pbs = (mgr, [])) ∧
    (∀ (p : String) (bf : List Nat),
      requestChunksFromPeer mgr p modelId bf = (mgr, [])) ∧
    (∀ (p : String) (idx : Nat), handleRequest mgr p ⟨modelId, idx⟩ = none) := by
  refine ⟨fun p idx data ck pbs now => ?_, fun pbs => ?_, fun p bf => ?_,
    fun p idx => ?_⟩ <;> simp [handlePiece, requestMoreChunks,
      requestChunksFromPeer, handleRequest, h]

/-- Witness for C10 at a concrete manager with one registered swarm and a
lookup of a different content id. -/
theorem unknown_content_noop_w :
    requestMoreChunks (createSwarm ⟨[]⟩ "m" ⟨"m", 2, 2⟩ [] 0) "other" [] =
      (createSwarm ⟨[]⟩ "m" ⟨"m", 2, 2⟩ [] 0, []) :=
  (unknown_content_noop (createSwarm ⟨[]⟩ "m" ⟨"m", 2, 2⟩ [] 0) "other"
    (by decide)).2.1 []

/-! ## Tracker re-announce idempotence (C9) -/

/-- C9: Announcing the same `(content, complete)` pair twice from the
same participant leaves the tracker's room state — every room's membership
and ordered participant list with completeness flags — identical to a
single announce: the second announce only refreshes `lastSeen`. -/
theorem tracker_reannounce_idempotent (st : TrackerState) (p : String)
    (m1 m2 : AnnounceMsg) (t1 t2 : Nat) (hm : m2.modelId = m1.modelId)
    (hc : m2.complete = m1.complete) :
    roomView (handleAnnounce (handleAnnounce st p m1 t1) p m2 t2) =
      roomView (handleAnnounce st p m1 t1) := by
  by_cases h0 : m1.modelId = ""
  · simp [handleAnnounce, h0, hm]
  · have h0' : ¬ m2.modelId = "" := by rw [hm]; exact h0
    simp only [handleAnnounce, h0, h0', if_false, hm]
    simp only [roomView, mapLookup_mapSet_self, Option.getD_some]
    simp only [map_snd_mapSet, mapSet_mapSet_same, hc]

/-- Witness for C9: a double announce on a concrete tracker state. -/
theorem tracker_reannounce_idempotent_w :
    roomView (handleAnnounce (handleAnnounce ⟨[], []⟩ "p1"
        ⟨"c1", true, [], 0, 0⟩ 10) "p1" ⟨"c1", true, [], 0, 0⟩ 20) =
      roomView (handleAnnounce ⟨[], []⟩ "p1" ⟨"c1", true, [], 0, 0⟩ 10) :=
  tracker_reannounce_idempotent ⟨[], []⟩ "p1" _ _ 10 20 rfl rfl

/-! ## Round trip of the chunker (C1) -/

theorem flatten_slices (b : List Nat) (cs : Nat) :
    ∀ n : Nat,
      ((List.range n).map (fun i => (b.drop (i * cs)).take cs)).flatten =
        b.take (n * cs)
  | 0 => by simp
  | n + 1 => by
    rw [List.range_succ, List.map_append, List.flatten_append, flatten_slices b cs n]
    simp [Nat.succ_mul, List.take_add]

theorem length_le_ceil_mul (len : Nat) :
    len ≤ ((len + CHUNK_SIZE - 1) / CHUNK_SIZE) * CHUNK_SIZE := by
  simp only [CHUNK_SIZE]
  omega

/-- C1: Reassembling the full piece list produced by the chunker
returns exactly the original bytes: for every non-empty byte string,
`createBlobFromChunks (prepareModel _ b).2 = b`. -/
theorem prepare_assemble_roundtrip (modelId : String) (b : List Nat)
    (_hb : b ≠ []) :
    createBlobFromChunks (prepareModel modelId b).2 = b := by
  unfold prepareModel createBlobFromChunks createChunks
  rw [List.mergeSort_of_sorted
    (List.Pairwise.map _ (fun i j (hij : i < j) => by
        simpa using Nat.le_of_lt hij)
      (List.pairwise_lt_range _))]
  simp only [List.map_map]
  have hcomp :
      ((fun c : ModelChunk => c.data) ∘ fun i =>
        ({ modelId := modelId, index := i,
           total := (b.length + CHUNK_SIZE - 1) / CHUNK_SIZE,
           data := (b.drop (i * CHUNK_SIZE)).take CHUNK_SIZE,
           checksum := calculateChecksum ((b.drop (i * CHUNK_SIZE)).take CHUNK_SIZE)
           } : ModelChunk)) =
      fun i => (b.drop (i * CHUNK_SIZE)).take CHUNK_SIZE := rfl
  rw [hcomp, flatten_slices]
  exact List.take_of_length_le (length_le_ceil_mul b.length)

/-- Witness for C1 on a concrete three-byte artifact. -/
theorem prepare_assemble_roundtrip_w :
    createBlobFromChunks (prepareModel "m" [1, 2, 3]).2 = [1, 2, 3] :=
  prepare_assemble_roundtrip "m" [1, 2, 3] (by decide)

/-! ## Helper lemmas: sets, erasure, timeouts -/

theorem mem_setAdd_self (s : List Nat) (i : Nat) : i ∈ setAdd s i := by
  unfold setAdd
  split
  · assumption
  · simp

theorem mapLookup_mapErase_self {κ β : Type} [DecidableEq κ] (m : List (κ × β))
    (k : κ) : mapLookup (mapErase m k) k = none := by
  induction m with
  | nil => rfl
  | cons e rest ih =>
    by_cases h : e.1 = k
    · simpa [mapErase, h] using ih
    · simpa [mapErase, h, mapLookup_cons] using ih

theorem mapHasKey_mapErase_self {κ β : Type} [DecidableEq κ] (m : List (κ × β))
    (k : κ) : mapHasKey (mapErase m k) k = false := by
  rw [mapHasKey_false_iff]
  exact mapLookup_mapErase_self m k

theorem mapErase_cons_self {κ β : Type} [DecidableEq κ] (e : κ × β)
    (rest : List (κ × β)) (k : κ) (he : e.1 = k) :
    mapErase (e :: rest) k = mapErase rest k := by
  simp [mapErase, he]

theorem mapErase_cons_ne {κ β : Type} [DecidableEq κ] (e : κ × β)
    (rest : List (κ × β)) (k : κ) (he : ¬ e.1 = k) :
    mapErase (e :: rest) k = e :: mapErase rest k := by
  simp [mapErase, he]

theorem mapLookup_mapErase_ne {κ β : Type} [DecidableEq κ] (m : List (κ × β))
    (k i : κ) (h : i ≠ k) : mapLookup (mapErase m k) i = mapLookup m i := by
  induction m with
  | nil => rfl
  | cons e rest ih =>
    rw [mapLookup_cons]
    by_cases he : e.1 = k
    · have hei : ¬ e.1 = i := by rw [he]; exact Ne.symm h
      rw [mapErase_cons_self e rest k he, if_neg hei]
      exact ih
    · rw [mapErase_cons_ne e rest k he, mapLookup_cons, ih]

theorem checkTimeouts_ownChunks (s : Swarm) (now : Nat) :
    (checkTimeouts s now).ownChunks = s.ownChunks := by
  unfold checkTimeouts
  split
  · rfl
  · split <;> rfl

theorem checkTimeouts_receivedChunks (s : Swarm) (now : Nat) :
    (checkTimeouts s now).receivedChunks = s.receivedChunks := by
  unfold checkTimeouts
  split
  · rfl
  · split <;> rfl

theorem checkTimeouts_totalChunks (s : Swarm) (now : Nat) :
    (checkTimeouts s now).totalChunks = s.totalChunks := by
  unfold checkTimeouts
  split
  · rfl
  · split <;> rfl

theorem checkTimeouts_requested_cases (s : Swarm) (now : Nat) :
    (checkTimeouts s now).requestedChunks = s.requestedChunks ∨
      (checkTimeouts s now).requestedChunks = [] := by
  unfold checkTimeouts
  split
  · exact Or.inl rfl
  · split
    · exact Or.inr rfl
    · exact Or.inl rfl

/-! ## `handlePiece` behaviour (C5) -/

/-- C5 counterexample: On a fresh 2-piece leecher swarm receiving a
verifying piece for index 0, the emitted `download_progress` value is the
percentage `50`, not the fraction `|owned| / total = 1/2` stated by the
claim. -/
theorem handlePiece_progress_is_percent :
    (handlePiece mgrProgress "P" msgProgress [] 0).2 =
      [SwarmAction.broadcast_have "m" 0, SwarmAction.download_progress "m" 50] ∧
    (50 : ℚ) ≠ 1 / 2 := by
  constructor
  · norm_num [handlePiece, mgrProgress, msgProgress, createSwarm, storePiece, mapLookup,
      mapSet, List.find?, verifyChunk, calculateChecksum, adlerStep, toInt32, setAdd,
      mapErase, checkTimeouts, REQUEST_TIMEOUT, requestMoreChunks, neededOf, mapHasKey,
      rarityOf, rmcPeers, List.mergeSort_singleton]
  · norm_num

/-- C5 amended: `handlePiece` on a registered swarm behaves as claimed,
except that the `download_progress` payload is the percentage
`100 · |owned| / total`: on checksum failure `requested[index]` is cleared,
no actions are emitted, and `owned` and `received` are unchanged; on success
the piece is stored in `received`, the index enters `owned`,
`requested[index]` is cleared, and the action list is `broadcast_have`,
`download_progress (100 · |owned| / total)`, then `download_complete` when
`|owned| = total` and otherwise exactly the actions returned by
`requestMoreChunks`. -/
theorem handlePiece_spec (mgr : SwarmMgr) (p : String) (msg : PieceMsg)
    (pbs : PeerBitfields) (now : Nat) (swarm : Swarm)
    (hs : mapLookup mgr.swarms msg.modelId = some swarm) :
    (verifyChunk ⟨msg.modelId, msg.chunkIndex, swarm.totalChunks, msg.data,
        msg.checksum⟩ = false →
      (handlePiece mgr p msg pbs now).2 = [] ∧
      ∃ s1, mapLookup (handlePiece mgr p msg pbs now).1.swarms msg.modelId = some s1 ∧
        s1.ownChunks = swarm.ownChunks ∧
        s1.receivedChunks = swarm.receivedChunks ∧
        mapHasKey s1.requestedChunks msg.chunkIndex = false ∧
        (∀ i, i ≠ msg.chunkIndex →
          mapLookup s1.requestedChunks i = mapLookup swarm.requestedChunks i)) ∧
    (verifyChunk ⟨msg.modelId, msg.chunkIndex, swarm.totalChunks, msg.data,
        msg.checksum⟩ = true →
      ∃ mgr2 s2, mapLookup mgr2.swarms msg.modelId = some s2 ∧
        mapLookup s2.receivedChunks msg.chunkIndex =
          some ⟨msg.modelId, msg.chunkIndex, swarm.totalChunks, msg.data, msg.checksum⟩ ∧
        msg.chunkIndex ∈ s2.ownChunks ∧
        mapHasKey s2.requestedChunks msg.chunkIndex = false ∧
        handlePiece mgr p msg pbs now =
          (if s2.ownChunks.length = s2.totalChunks
           then (mgr2,
             [SwarmAction.broadcast_have msg.modelId msg.chunkIndex,
              SwarmAction.download_progress msg.modelId
                ((s2.ownChunks.length : ℚ) / (s2.totalChunks : ℚ) * 100),
              SwarmAction.download_complete msg.modelId])
           else ((requestMoreChunks mgr2 msg.modelId pbs).1,
             SwarmAction.broadcast_have msg.modelId msg.chunkIndex ::
               SwarmAction.download_progress msg.modelId
                 ((s2.ownChunks.length : ℚ) / (s2.totalChunks : ℚ) * 100) ::
               (requestMoreChunks mgr2 msg.modelId pbs).2))) := by
  constructor
  · intro hv
    simp only [handlePiece, hs, hv, Bool.not_false, if_true]
    refine ⟨trivial, _, mapLookup_mapSet_self _ _ _, rfl, rfl, ?_, ?_⟩
    · exact mapHasKey_mapErase_self _ _
    · exact fun i hi => mapLookup_mapErase_ne _ _ _ hi
  · intro hv
    simp only [handlePiece, hs, hv, Bool.not_true, Bool.false_eq_true, if_false]
    refine ⟨⟨mapSet mgr.swarms msg.modelId (checkTimeouts (storePiece swarm msg) now)⟩,
      checkTimeouts (storePiece swarm msg) now,
      mapLookup_mapSet_self _ _ _, ?_, ?_, ?_, ?_⟩
    · rw [checkTimeouts_receivedChunks]
      exact mapLookup_mapSet_self _ _ _
    · rw [checkTimeouts_ownChunks]
      exact mem_setAdd_self _ _
    · rcases checkTimeouts_requested_cases (storePiece swarm msg) now with hreq | hreq
      · rw [hreq]
        exact mapHasKey_mapErase_self _ _
      · rw [hreq]
        rfl
    · rw [checkTimeouts_ownChunks, checkTimeouts_totalChunks]

/-- Witness for the amended C5: the success case applied to the concrete
2-piece leecher swarm. -/
theorem handlePiece_spec_w :
    ∃ mgr2 s2, mapLookup mgr2.swarms "m" = some s2 ∧
      mapLookup s2.receivedChunks 0 = some ⟨"m", 0, 2, [0], 65537⟩ ∧
      (0 : Nat) ∈ s2.ownChunks ∧
      mapHasKey s2.requestedChunks 0 = false ∧
      handlePiece mgrProgress "P" msgProgress [] 0 =
        (if s2.ownChunks.length = s2.totalChunks
         then (mgr2,
           [SwarmAction.broadcast_have "m" 0,
            SwarmAction.download_progress "m"
              ((s2.ownChunks.length : ℚ) / (s2.totalChunks : ℚ) * 100),
            SwarmAction.download_complete "m"])
         else ((requestMoreChunks mgr2 "m" []).1,
           SwarmAction.broadcast_have "m" 0 ::
             SwarmAction.download_progress "m"
               ((s2.ownChunks.length : ℚ) / (s2.totalChunks : ℚ) * 100) ::
             (requestMoreChunks mgr2 "m" []).2)) :=
  (handlePiece_spec mgrProgress "P" msgProgress [] 0
    { modelId := "m", metadata := some ⟨"m", 2, 2⟩, ownChunks := [],
      requestedChunks := [], receivedChunks := [], totalChunks := 2,
      startTime := some 0 }
    (by decide)).2 (by decide)

/-! ## The pipelining budget (C3) -/

theorem reqCountFor_mapSet_fresh (req : List (Nat × String)) (i : Nat)
    (p q : String) (h : mapHasKey req i = false) :
    reqCountFor (mapSet req i p) q =
      reqCountFor req q + (if p = q then 1 else 0) := by
  rw [mapSet_of_not_hasKey req i p h, reqCountFor_append_single]

theorem rmcInner_count_other (modelId p : String) (bitfield : List Nat) (pr : Nat)
    (q : String) (hq : q ≠ p) :
    ∀ (is : List Nat) (r : Nat) (req : List (Nat × String)),
      reqCountFor (rmcInner modelId p bitfield pr is r req).1 q = reqCountFor req q
  | [], r, req => rfl
  | i :: rest, r, req => by
    unfold rmcInner
    split
    · rfl
    · split
      · rename_i hcond
        have hkey : mapHasKey req i = false := by
          rcases Bool.and_eq_true_iff.1 hcond with ⟨-, hk⟩
          simpa using hk
        simp only []
        rw [rmcInner_count_other modelId p bitfield pr q hq rest (r + 1) _]
        rw [reqCountFor_mapSet_fresh req i p q hkey]
        simp [Ne.symm hq]
      · exact rmcInner_count_other modelId p bitfield pr q hq rest r req

theorem rmcInner_count_self (modelId p : String) (bitfield : List Nat) (pr : Nat) :
    ∀ (is : List Nat) (r : Nat) (req : List (Nat × String)),
      reqCountFor req p = pr + r → pr + r ≤ max pr CHUNKS_PER_REQUEST →
      reqCountFor (rmcInner modelId p bitfield pr is r req).1 p ≤
        max pr CHUNKS_PER_REQUEST
  | [], r, req, hcount, hbound => by
    show reqCountFor req p ≤ max pr CHUNKS_PER_REQUEST
    omega
  | i :: rest, r, req, hcount, hbound => by
    unfold rmcInner
    split
    · show reqCountFor req p ≤ max pr CHUNKS_PER_REQUEST
      omega
    · split
      · rename_i hstop hcond
        have hkey : mapHasKey req i = false := by
          rcases Bool.and_eq_true_iff.1 hcond with ⟨-, hk⟩
          simpa using hk
        simp only []
        refine rmcInner_count_self modelId p bitfield pr rest (r + 1) _ ?_ ?_
        · rw [reqCountFor_mapSet_fresh req i p p hkey, hcount]
          simp [Nat.add_assoc]
        · omega
      · exact rmcInner_count_self modelId p bitfield pr rest r req hcount hbound

theorem rmcPeers_count (modelId : String) (sorted : List Nat) :
    ∀ (pbs : PeerBitfields) (req : List (Nat × String)) (q : String),
      reqCountFor (rmcPeers modelId sorted pbs req).1 q ≤
        max (reqCountFor req q) CHUNKS_PER_REQUEST
  | [], req, q => Nat.le_max_left _ _
  | (p, bitfields) :: rest, req, q => by
    unfold rmcPeers
    split
    · exact rmcPeers_count modelId sorted rest req q
    · split
      · exact rmcPeers_count modelId sorted rest req q
      · rename_i bitfield heq hlt
        simp only []
        have hrest := rmcPeers_count modelId sorted rest
          (rmcInner modelId p bitfield (reqCountFor req p) sorted 0 req).1 q
        by_cases hq : q = p
        · subst hq
          have hself :
              reqCountFor (rmcInner modelId q bitfield (reqCountFor req q)
                sorted 0 req).1 q ≤ max (reqCountFor req q) CHUNKS_PER_REQUEST :=
            rmcInner_count_self modelId q bitfield (reqCountFor req q) sorted 0 req
              (by omega) (Nat.le_max_left _ _)
          have hmax : max (reqCountFor req q) CHUNKS_PER_REQUEST =
              CHUNKS_PER_REQUEST := by omega
          rw [hmax] at hself
          calc reqCountFor (rmcPeers modelId sorted rest _).1 q
              ≤ max (reqCountFor (rmcInner modelId q bitfield (reqCountFor req q)
                  sorted 0 req).1 q) CHUNKS_PER_REQUEST := hrest
            _ ≤ max CHUNKS_PER_REQUEST CHUNKS_PER_REQUEST :=
                max_le_max hself (le_refl _)
            _ = CHUNKS_PER_REQUEST := max_self _
            _ ≤ max (reqCountFor req q) CHUNKS_PER_REQUEST := le_max_right _ _
        · rw [rmcInner_count_other modelId p bitfield (reqCountFor req p) q hq
            sorted 0 req] at hrest
          exact hrest

theorem swarmReqCount_mapSet_self (m : List (String × Swarm)) (mid : String)
    (s : Swarm) (q : String) :
    swarmReqCount ⟨mapSet m mid s⟩ mid q = reqCountFor s.requestedChunks q := by
  unfold swarmReqCount
  rw [mapLookup_mapSet_self]

theorem swarmReqCount_mapSet_ne (m : List (String × Swarm)) (mid mid' : String)
    (s : Swarm) (q : String) (h : mid' ≠ mid) :
    swarmReqCount ⟨mapSet m mid s⟩ mid' q = swarmReqCount ⟨m⟩ mid' q := by
  unfold swarmReqCount
  rw [mapLookup_mapSet_ne _ _ _ _ h]

theorem reqCountFor_checkTimeouts_le (s : Swarm) (now : Nat) (q : String) :
    reqCountFor (checkTimeouts s now).requestedChunks q ≤
      reqCountFor s.requestedChunks q := by
  rcases checkTimeouts_requested_cases s now with h | h <;> rw [h]
  exact Nat.zero_le _

theorem swarmReqCount_requestMoreChunks_le (mgr : SwarmMgr) (modelId : String)
    (pbs : PeerBitfields) (mid q : String) :
    swarmReqCount (requestMoreChunks mgr modelId pbs).1 mid q ≤
      max (swarmReqCount mgr mid q) CHUNKS_PER_REQUEST := by
  unfold requestMoreChunks
  split
  · exact le_max_left _ _
  · rename_i swarm heq
    split
    · exact le_max_left _ _
    · by_cases hmid : mid = modelId
      · subst hmid
        rw [swarmReqCount_mapSet_self]
        have hsw : swarmReqCount mgr mid q = reqCountFor swarm.requestedChunks q := by
          unfold swarmReqCount
          rw [heq]
        rw [hsw]
        exact rmcPeers_count _ _ pbs swarm.requestedChunks q
      · rw [swarmReqCount_mapSet_ne _ _ _ _ _ hmid]
        exact le_max_left _ _

theorem swarmReqCount_createSwarm_le (mgr : SwarmMgr) (modelId : String)
    (metadata : ModelPackage) (chunks : List ModelChunk) (now : Nat)
    (mid q : String) :
    swarmReqCount (createSwarm mgr modelId metadata chunks now) mid q ≤
      max (swarmReqCount mgr mid q) CHUNKS_PER_REQUEST := by
  unfold createSwarm
  by_cases hmid : mid = modelId
  · subst hmid
    rw [swarmReqCount_mapSet_self]
    exact Nat.le_trans (Nat.zero_le _) (le_max_right _ _)
  · rw [swarmReqCount_mapSet_ne _ _ _ _ _ hmid]
    exact le_max_left _ _

theorem swarmReqCount_handlePiece_le (mgr : SwarmMgr) (p : String)
    (msg : PieceMsg) (pbs : PeerBitfields) (now : Nat) (mid q : String) :
    swarmReqCount (handlePiece mgr p msg pbs now).1 mid q ≤
      max (swarmReqCount mgr mid q) CHUNKS_PER_REQUEST := by
  unfold handlePiece
  split
  · exact le_max_left _ _
  · rename_i swarm heq
    have hsw : swarmReqCount mgr msg.modelId q = reqCountFor swarm.requestedChunks q := by
      unfold swarmReqCount
      rw [heq]
    split
    · by_cases hmid : mid = msg.modelId
      · subst hmid
        show swarmReqCount ⟨mapSet mgr.swarms msg.modelId _⟩ msg.modelId q ≤ _
        rw [swarmReqCount_mapSet_self, hsw]
        exact Nat.le_trans (reqCountFor_mapErase_le _ _ _) (le_max_left _ _)
      · show swarmReqCount ⟨mapSet mgr.swarms msg.modelId _⟩ mid q ≤ _
        rw [swarmReqCount_mapSet_ne _ _ _ _ _ hmid]
        exact le_max_left _ _
    · have hmid2 : ∀ s2 : Swarm,
          reqCountFor s2.requestedChunks q ≤ reqCountFor swarm.requestedChunks q →
          swarmReqCount ⟨mapSet mgr.swarms msg.modelId s2⟩ mid q ≤
            max (swarmReqCount mgr mid q) CHUNKS_PER_REQUEST := by
        intro s2 hle
        by_cases hmid : mid = msg.modelId
        · subst hmid
          rw [swarmReqCount_mapSet_self, hsw]
          exact Nat.le_trans hle (le_max_left _ _)
        · rw [swarmReqCount_mapSet_ne _ _ _ _ _ hmid]
          exact le_max_left _ _
      have hct : ∀ s2 : Swarm,
          reqCountFor (checkTimeouts s2 now).requestedChunks q ≤
            reqCountFor s2.requestedChunks q := fun s2 =>
        reqCountFor_checkTimeouts_le s2 now q
      split
      · exact hmid2 _ (Nat.le_trans (hct _) (reqCountFor_mapErase_le _ _ _))
      · refine Nat.le_trans (swarmReqCount_requestMoreChunks_le _ msg.modelId pbs mid q) ?_
        have h2 := hmid2 (checkTimeouts (storePiece swarm msg) now)
          (Nat.le_trans (hct (storePiece swarm msg)) (reqCountFor_mapErase_le _ _ _))
        omega

/-- C3 counterexample: The state reached from the empty manager by
`createSwarm` (a 6-piece leecher) followed by six `requestChunksFromPeer`
bootstrap calls for the same peer has six in-flight requests assigned to
that peer, exceeding the pipelining budget `K = 5`:
`requestChunksFromPeer` never checks the per-peer in-flight count. -/
theorem budget_violated_reachable :
    Reachable mgrBudget ∧
      ¬ (swarmReqCount mgrBudget "m" "P" ≤ CHUNKS_PER_REQUEST) := by
  constructor
  · exact Reachable.bootstrap _ _ _ (Reachable.bootstrap _ _ _
      (Reachable.bootstrap _ _ _ (Reachable.bootstrap _ _ _
        (Reachable.bootstrap _ _ _ (Reachable.bootstrap _ _ _
          (Reachable.create "m" ⟨"m", 90, 6⟩ [] 0 Reachable.init))))))
  · decide

/-- C3 amended: In every state reachable by sequences of SwarmManager
operations that do not use the single-request bootstrap
`requestChunksFromPeer`, every peer's in-flight request count is at most the
pipelining budget `K = 5`; `requestMoreChunks` enforces the budget, while
repeated `requestChunksFromPeer` calls can exceed it by one per call. -/
theorem budget_respected_without_bootstrap (mgr : SwarmMgr)
    (h : ReachableNoBootstrap mgr) (modelId peerId : String) :
    swarmReqCount mgr modelId peerId ≤ CHUNKS_PER_REQUEST := by
  induction h with
  | init =>
    show swarmReqCount ⟨[]⟩ modelId peerId ≤ CHUNKS_PER_REQUEST
    exact Nat.zero_le _
  | @create mgr0 modelId2 metadata chunks now h ih =>
    have := swarmReqCount_createSwarm_le mgr0 modelId2 metadata chunks now modelId peerId
    omega
  | @piece mgr0 p msg pbs now h ih =>
    have := swarmReqCount_handlePiece_le mgr0 p msg pbs now modelId peerId
    omega
  | @more mgr0 modelId2 pbs h ih =>
    have := swarmReqCount_requestMoreChunks_le mgr0 modelId2 pbs modelId peerId
    omega

/-- Witness for the amended C3, at the state reached by creating a 6-piece
leecher swarm and running one `requestMoreChunks` pass. -/
theorem budget_respected_without_bootstrap_w :
    swarmReqCount (requestMoreChunks (createSwarm ⟨[]⟩ "m" ⟨"m", 90, 6⟩ [] 0)
        "m" []).1 "m" "P" ≤ CHUNKS_PER_REQUEST :=
  budget_respected_without_bootstrap _
    (ReachableNoBootstrap.more "m" []
      (ReachableNoBootstrap.create "m" ⟨"m", 90, 6⟩ [] 0
        ReachableNoBootstrap.init)) "m" "P"

/-! ## Helper lemmas: membership in maps and sets -/

theorem mem_mapSet {κ β : Type} [DecidableEq κ] {m : List (κ × β)} {k : κ}
    {v : β} {e : κ × β} (h : e ∈ mapSet m k v) : e ∈ m ∨ e = (k, v) := by
  induction m with
  | nil =>
    simp only [mapSet, List.mem_singleton] at h
    exact Or.inr h
  | cons f rest ih =>
    by_cases hf : f.1 = k
    · rw [mapSet, if_pos hf] at h
      rcases List.mem_cons.1 h with h1 | h1
      · exact Or.inr h1
      · exact Or.inl (List.mem_cons_of_mem f h1)
    · rw [mapSet, if_neg hf] at h
      rcases List.mem_cons.1 h with h1 | h1
      · exact Or.inl (h1 ▸ List.mem_cons_self f rest)
      · rcases ih h1 with h2 | h2
        · exact Or.inl (List.mem_cons_of_mem f h2)
        · exact Or.inr h2

theorem mem_setAdd {s : List Nat} {i j : Nat} (h : i ∈ setAdd s j) :
    i ∈ s ∨ i = j := by
  unfold setAdd at h
  split at h
  · exact Or.inl h
  · rcases List.mem_append.1 h with h1 | h1
    · exact Or.inl h1
    · exact Or.inr (by simpa using h1)

theorem mem_setAdd_of_mem {s : List Nat} {i j : Nat} (h : i ∈ s) :
    i ∈ setAdd s j := by
  unfold setAdd
  split
  · exact h
  · exact List.mem_append_left _ h

theorem mapHasKey_mapErase_imp {κ β : Type} [DecidableEq κ] {m : List (κ × β)}
    {k i : κ} (h : mapHasKey (mapErase m k) i = true) :
    mapHasKey m i = true ∧ i ≠ k := by
  rcases eq_or_ne i k with rfl | hik
  · rw [mapHasKey_mapErase_self] at h
    cases h
  · refine ⟨?_, hik⟩
    unfold mapHasKey at h ⊢
    rwa [mapLookup_mapErase_ne _ _ _ hik] at h

theorem mem_neededOf {s : Swarm} {i : Nat} :
    i ∈ neededOf s ↔
      i < s.totalChunks ∧ ¬ i ∈ s.ownChunks ∧
        mapHasKey s.requestedChunks i = false := by
  simp [neededOf, List.mem_filter, List.mem_range, and_assoc]

theorem mem_foldl_mapSet :
    ∀ (chunks : List ModelChunk) (m0 : List (Nat × ModelChunk))
      (e : Nat × ModelChunk),
      e ∈ chunks.foldl (fun m c => mapSet m c.index c) m0 →
      e ∈ m0 ∨ ∃ c ∈ chunks, e.1 = c.index
  | [], _, _, h => Or.inl h
  | c :: rest, m0, e, h => by
    rcases mem_foldl_mapSet rest (mapSet m0 c.index c) e h with h1 | h1
    · rcases mem_mapSet h1 with h2 | h2
      · exact Or.inl h2
      · exact Or.inr ⟨c, List.mem_cons_self _ _, by rw [h2]⟩
    · obtain ⟨c2, hc2, he2⟩ := h1
      exact Or.inr ⟨c2, List.mem_cons_of_mem _ hc2, he2⟩

/-! ## Keys inserted by `requestMoreChunks` -/

theorem rmcInner_hasKey (modelId p : String) (bitfield : List Nat) (pr : Nat) :
    ∀ (is : List Nat) (r : Nat) (req : List (Nat × String)) (k : Nat),
      mapHasKey (rmcInner modelId p bitfield pr is r req).1 k = true →
      mapHasKey req k = true ∨ k ∈ is
  | [], _, _, _, h => Or.inl h
  | i :: rest, r, req, k, h => by
    revert h
    unfold rmcInner
    split
    · exact fun h => Or.inl h
    · split
      · intro h
        replace h : mapHasKey
            (rmcInner modelId p bitfield pr rest (r + 1) (mapSet req i p)).1 k = true := h
        rcases rmcInner_hasKey modelId p bitfield pr rest (r + 1) (mapSet req i p) k h
          with h1 | h1
        · rw [mapHasKey_mapSet] at h1
          rcases Bool.or_eq_true_iff.1 h1 with h2 | h2
          · exact Or.inr (by simp_all)
          · exact Or.inl h2
        · exact Or.inr (List.mem_cons_of_mem i h1)
      · intro h
        rcases rmcInner_hasKey modelId p bitfield pr rest r req k h with h1 | h1
        · exact Or.inl h1
        · exact Or.inr (List.mem_cons_of_mem i h1)

theorem rmcPeers_hasKey (modelId : String) (sorted : List Nat) :
    ∀ (pbs : PeerBitfields) (req : List (Nat × String)) (k : Nat),
      mapHasKey (rmcPeers modelId sorted pbs req).1 k = true →
      mapHasKey req k = true ∨ k ∈ sorted
  | [], _, _, h => Or.inl h
  | (p, bfs) :: rest, req, k, h => by
    revert h
    unfold rmcPeers
    split
    · exact fun h => rmcPeers_hasKey modelId sorted rest req k h
    · rename_i bitfield heq
      split
      · exact fun h => rmcPeers_hasKey modelId sorted rest req k h
      · intro h
        replace h : mapHasKey (rmcPeers modelId sorted rest
            (rmcInner modelId p bitfield (reqCountFor req p) sorted 0 req).1).1 k
              = true := h
        rcases rmcPeers_hasKey modelId sorted rest _ k h with h1 | h1
        · rcases rmcInner_hasKey modelId p bitfield (reqCountFor req p) sorted 0 req k h1
            with h2 | h2
          · exact Or.inl h2
          · exact Or.inr h2
        · exact Or.inr h1

/-! ## Preservation of the swarm invariants (C4) -/

theorem mgrWF_mapSet (m : List (String × Swarm)) (mid0 : String) (s0 : Swarm)
    (hm : mgrWF ⟨m⟩) (hs0 : swarmWF s0) : mgrWF ⟨mapSet m mid0 s0⟩ := by
  intro mid s hms
  by_cases hmid : mid = mid0
  · subst hmid
    rw [show (SwarmMgr.mk (mapSet m mid s0)).swarms = mapSet m mid s0 from rfl,
      mapLookup_mapSet_self] at hms
    cases hms
    exact hs0
  · rw [show (SwarmMgr.mk (mapSet m mid0 s0)).swarms = mapSet m mid0 s0 from rfl,
      mapLookup_mapSet_ne _ _ _ _ hmid] at hms
    exact hm mid s hms

theorem mgrWF_requestMoreChunks (mgr : SwarmMgr) (modelId : String)
    (pbs : PeerBitfields) (h : mgrWF mgr) :
    mgrWF (requestMoreChunks mgr modelId pbs).1 := by
  unfold requestMoreChunks
  split
  · exact h
  · rename_i swarm heq
    split
    · exact h
    · obtain ⟨hown, hdisj, hrecv⟩ := h modelId swarm heq
      refine mgrWF_mapSet _ _ _ h ⟨hown, ?_, hrecv⟩
      intro i hi
      cases hK : mapHasKey ((rmcPeers modelId ((neededOf swarm).mergeSort
          (fun a b => rarityOf pbs modelId a ≤ rarityOf pbs modelId b))
          pbs swarm.requestedChunks).1) i
      · rfl
      · exfalso
        rcases rmcPeers_hasKey _ _ pbs swarm.requestedChunks i hK with h1 | h1
        · rw [hdisj i hi] at h1
          cases h1
        · rw [List.mem_mergeSort] at h1
          exact (mem_neededOf.1 h1).2.1 hi

theorem mgrWF_createSwarm (mgr : SwarmMgr) (modelId : String)
    (metadata : ModelPackage) (chunks : List ModelChunk) (now : Nat)
    (h : mgrWF mgr) (hidx : ∀ c ∈ chunks, c.index < chunks.length) :
    mgrWF (createSwarm mgr modelId metadata chunks now) := by
  unfold createSwarm
  refine mgrWF_mapSet _ _ _ h ⟨?_, ?_, ?_⟩
  · intro i hi
    have hi' := List.mem_range.1 hi
    show i < if chunks.length > 0 then chunks.length else metadata.totalChunks
    split <;> omega
  · intro i _
    rfl
  · intro e he
    rcases mem_foldl_mapSet chunks [] e he with h1 | h1
    · cases h1
    · obtain ⟨c, hc, hce⟩ := h1
      show e.1 ∈ List.range chunks.length
      rw [List.mem_range, hce]
      exact hidx c hc

theorem swarmWF_stored (swarm : Swarm) (msg : PieceMsg) (now : Nat)
    (hown : ownedInRange swarm) (hdisj : ownedReqDisjoint swarm)
    (hrecv : receivedSubOwned swarm) (hidx : msg.chunkIndex < swarm.totalChunks) :
    swarmWF (checkTimeouts (storePiece swarm msg) now) := by
  refine ⟨?_, ?_, ?_⟩
  · intro i hi
    rw [checkTimeouts_ownChunks] at hi
    rw [checkTimeouts_totalChunks]
    rcases mem_setAdd hi with h1 | h1
    · exact hown i h1
    · rw [h1]
      exact hidx
  · intro i hi
    rw [checkTimeouts_ownChunks] at hi
    rcases checkTimeouts_requested_cases (storePiece swarm msg) now with hr | hr
    · rw [hr]
      show mapHasKey (mapErase swarm.requestedChunks msg.chunkIndex) i = false
      rcases mem_setAdd hi with h1 | h1
      · cases hK : mapHasKey (mapErase swarm.requestedChunks msg.chunkIndex) i
        · rfl
        · obtain ⟨h2, -⟩ := mapHasKey_mapErase_imp hK
          rw [hdisj i h1] at h2
          cases h2
      · rw [h1]
        exact mapHasKey_mapErase_self _ _
    · rw [hr]
      rfl
  · intro e he
    rw [checkTimeouts_receivedChunks] at he
    rw [checkTimeouts_ownChunks]
    rcases mem_mapSet he with h1 | h1
    · exact mem_setAdd_of_mem (hrecv e h1)
    · rw [h1]
      exact mem_setAdd_self _ _

theorem mgrWF_handlePiece (mgr : SwarmMgr) (p : String) (msg : PieceMsg)
    (pbs : PeerBitfields) (now : Nat) (h : mgrWF mgr)
    (hrange : ∀ s, mapLookup mgr.swarms msg.modelId = some s →
      msg.chunkIndex < s.totalChunks) :
    mgrWF (handlePiece mgr p msg pbs now).1 := by
  unfold handlePiece
  split
  · exact h
  · rename_i swarm heq
    obtain ⟨hown, hdisj, hrecv⟩ := h msg.modelId swarm heq
    have hidx := hrange swarm heq
    split
    · refine mgrWF_mapSet _ _ _ h ⟨hown, ?_, hrecv⟩
      intro i hi
      cases hK : mapHasKey (mapErase swarm.requestedChunks msg.chunkIndex) i
      · rfl
      · obtain ⟨h2, -⟩ := mapHasKey_mapErase_imp hK
        rw [hdisj i hi] at h2
        cases h2
    · have hs2 := swarmWF_stored swarm msg now hown hdisj hrecv hidx
      split
      · exact mgrWF_mapSet _ _ _ h hs2
      · exact mgrWF_requestMoreChunks _ msg.modelId pbs (mgrWF_mapSet _ _ _ h hs2)

theorem mgrWF_requestChunksFromPeer (mgr : SwarmMgr) (p modelId : String)
    (bitfield : List Nat) (h : mgrWF mgr) :
    mgrWF (requestChunksFromPeer mgr p modelId bitfield).1 := by
  unfold requestChunksFromPeer
  split
  · exact h
  · rename_i swarm heq
    split
    · exact h
    · rename_i i hfind
      have hcond := List.find?_some hfind
      have hnotown : ¬ i ∈ swarm.ownChunks := by
        simp only [Bool.and_eq_true, Bool.not_eq_true'] at hcond
        simpa using hcond.1.1
      have hnotreq : mapHasKey swarm.requestedChunks i = false := by
        simp only [Bool.and_eq_true, Bool.not_eq_true'] at hcond
        exact hcond.1.2
      obtain ⟨hown, hdisj, hrecv⟩ := h modelId swarm heq
      refine mgrWF_mapSet _ _ _ h ⟨hown, ?_, hrecv⟩
      intro j hj
      rw [mapHasKey_mapSet]
      have h1 : ¬ j = i := fun hji => hnotown (hji ▸ hj)
      simp [h1, hdisj j hj]

/-- C4 counterexample: The swarm invariant `owned ⊆ [0, total)` fails
on a reachable state: a fresh 1-piece leecher swarm fed a checksum-valid
piece frame with index 5 ends with `owned = {5}` and `total = 1`
(`handlePiece` performs no bounds check on the inbound index). -/
theorem owned_in_range_violated :
    Reachable mgrRange ∧ mapLookup mgrRange.swarms "m" = some swarmRange ∧
      ¬ ownedInRange swarmRange := by
  refine ⟨Reachable.piece "P" ⟨"m", 5, [], 1⟩ [] 0
    (Reachable.create "m" ⟨"m", 1, 1⟩ [] 0 Reachable.init), by decide, ?_⟩
  intro hinv
  exact absurd (hinv 5 (by decide)) (by decide)

/-- C4 amended: Every SwarmManager operation preserves the swarm
invariants — `owned ⊆ [0, total)`, `owned ∩ keys(requested) = ∅`, and
`keys(received) ⊆ owned` — in every state reachable from the empty manager,
provided `createSwarm` is called with chunk lists whose indices are in range
of the list length (as the chunker produces) and inbound piece frames carry
an index below the target swarm's piece count; without the latter
restriction `owned ⊆ [0, total)` fails. -/
theorem swarm_invariants_checked (mgr : SwarmMgr) (h : ReachableChecked mgr) :
    mgrWF mgr := by
  induction h with
  | init =>
    intro mid s hms
    simp [mapLookup] at hms
  | @create mgr0 modelId metadata chunks now hidx h ih =>
    exact mgrWF_createSwarm mgr0 modelId metadata chunks now ih hidx
  | @piece mgr0 p msg pbs now hrange h ih =>
    exact mgrWF_handlePiece mgr0 p msg pbs now ih hrange
  | @more mgr0 modelId pbs h ih =>
    exact mgrWF_requestMoreChunks mgr0 modelId pbs ih
  | @bootstrap mgr0 p modelId bitfield h ih =>
    exact mgrWF_requestChunksFromPeer mgr0 p modelId bitfield ih

/-- Witness for the amended C4 at the seeder state created from the
chunker's pieces of a 3-byte artifact. -/
theorem swarm_invariants_checked_w :
    mgrWF (createSwarm ⟨[]⟩ "m" ⟨"m", 3, 1⟩ (prepareModel "m" [1, 2, 3]).2 0) :=
  swarm_invariants_checked _
    (ReachableChecked.create "m" ⟨"m", 3, 1⟩ (prepareModel "m" [1, 2, 3]).2 0
      (by decide) ReachableChecked.init)

/-! ## Stable sort by rarity: ties broken by ascending index (C2) -/

theorem sorted_pairwise_lex (l : List Nat) (rar : Nat → Nat)
    (hl : l.Pairwise (· < ·)) :
    (l.mergeSort (fun a b => rar a ≤ rar b)).Pairwise (lexLe rar) := by
  have htrans : ∀ a b c : Nat, (fun a b => (rar a ≤ rar b : Bool)) a b →
      (fun a b => (rar a ≤ rar b : Bool)) b c →
      (fun a b => (rar a ≤ rar b : Bool)) a c := by
    intro a b c hab hbc
    simp only [decide_eq_true_eq] at *
    omega
  have htotal : ∀ a b : Nat, ((fun a b => (rar a ≤ rar b : Bool)) a b ||
      (fun a b => (rar a ≤ rar b : Bool)) b a) = true := by
    intro a b
    simp only [Bool.or_eq_true, decide_eq_true_eq]
    omega
  rw [← List.mergeSort_enum, List.pairwise_map]
  have hs := List.sorted_mergeSort (List.enumLE_trans htrans)
    (List.enumLE_total htotal) l.enum
  refine hs.imp_of_mem ?_
  intro x y hx hy hxy
  have hx' : x ∈ l.enum := List.mem_mergeSort.1 hx
  have hy' : y ∈ l.enum := List.mem_mergeSort.1 hy
  have hxq := List.mem_enum_iff_getElem?.1 hx'
  have hyq := List.mem_enum_iff_getElem?.1 hy'
  simp only [List.enumLE] at hxy
  by_cases h1 : rar x.2 ≤ rar y.2
  · by_cases h2 : rar y.2 ≤ rar x.2
    · have hxy1 : x.1 ≤ y.1 := by
        simp only [h1, h2, decide_eq_true_eq, if_true] at hxy
        simpa using hxy
      right
      refine ⟨Nat.le_antisymm h1 h2, ?_⟩
      rcases Nat.lt_or_ge x.1 y.1 with hlt | hge
      · obtain ⟨hxlen, hxget⟩ := List.getElem?_eq_some_iff.1 hxq
        obtain ⟨hylen, hyget⟩ := List.getElem?_eq_some_iff.1 hyq
        have hmono := (List.pairwise_iff_getElem.1 hl) x.1 y.1 hxlen hylen hlt
        rw [hxget, hyget] at hmono
        exact Nat.le_of_lt hmono
      · have hxy2 : x.1 = y.1 := Nat.le_antisymm hxy1 hge
        rw [hxy2] at hxq
        exact Nat.le_of_eq (Option.some.inj (hxq.symm.trans hyq))
    · left
      omega
  · simp only [h1] at hxy
    simp at hxy

/-! ## What `requestMoreChunks` emits and records (C2) -/

theorem rmcInner_preserves (modelId p : String) (bitfield : List Nat) (pr : Nat) :
    ∀ (is : List Nat) (r : Nat) (req : List (Nat × String)) (k : Nat) (v : String),
      mapLookup req k = some v →
      mapLookup (rmcInner modelId p bitfield pr is r req).1 k = some v
  | [], _, _, _, _, h => h
  | i :: rest, r, req, k, v, h => by
    unfold rmcInner
    split
    · exact h
    · split
      · rename_i hstop hcond
        have hkey : mapHasKey req i = false := by
          rcases Bool.and_eq_true_iff.1 hcond with ⟨-, hk⟩
          simpa using hk
        exact rmcInner_preserves modelId p bitfield pr rest (r + 1) (mapSet req i p)
          k v (mapLookup_mapSet_of_some req i k p v hkey h)
      · exact rmcInner_preserves modelId p bitfield pr rest r req k v h

theorem rmcInner_actions (modelId p : String) (bitfield : List Nat) (pr : Nat) :
    ∀ (is : List Nat) (r : Nat) (req : List (Nat × String)),
      ∀ a ∈ (rmcInner modelId p bitfield pr is r req).2, ∃ i,
        a = SwarmAction.request_chunk p modelId i ∧ i ∈ is ∧
        hasBit bitfield i = true ∧
        mapLookup (rmcInner modelId p bitfield pr is r req).1 i = some p
  | [], _, _, a, ha => absurd ha (List.not_mem_nil a)
  | i :: rest, r, req, a, ha => by
    revert ha
    unfold rmcInner
    split
    · intro ha
      exact absurd ha (List.not_mem_nil a)
    · split
      · rename_i hstop hcond
        have hbit : hasBit bitfield i = true := (Bool.and_eq_true_iff.1 hcond).1
        have hkey : mapHasKey req i = false := by
          rcases Bool.and_eq_true_iff.1 hcond with ⟨-, hk⟩
          simpa using hk
        intro ha
        rcases List.mem_cons.1 ha with rfl | ha'
        · exact ⟨i, rfl, List.mem_cons_self _ _, hbit,
            rmcInner_preserves modelId p bitfield pr rest (r + 1) (mapSet req i p)
              i p (mapLookup_mapSet_self req i p)⟩
        · obtain ⟨j, haj, hj, hbj, hlj⟩ := rmcInner_actions modelId p bitfield pr
            rest (r + 1) (mapSet req i p) a ha'
          exact ⟨j, haj, List.mem_cons_of_mem i hj, hbj, hlj⟩
      · intro ha
        obtain ⟨j, haj, hj, hbj, hlj⟩ :=
          rmcInner_actions modelId p bitfield pr rest r req a ha
        exact ⟨j, haj, List.mem_cons_of_mem i hj, hbj, hlj⟩

theorem rmcInner_filterMap_self (modelId p : String) (bitfield : List Nat)
    (pr : Nat) :
    ∀ (is : List Nat) (r : Nat) (req : List (Nat × String)),
      ((rmcInner modelId p bitfield pr is r req).2.filterMap
        (actionIndexFor p)).Sublist is
  | [], _, _ => List.nil_sublist _
  | i :: rest, r, req => by
    unfold rmcInner
    split
    · exact List.nil_sublist _
    · split
      · show ((SwarmAction.request_chunk p modelId i ::
            (rmcInner modelId p bitfield pr rest (r + 1) (mapSet req i p)).2).filterMap
              (actionIndexFor p)).Sublist (i :: rest)
        rw [List.filterMap_cons]
        simp only [actionIndexFor, if_pos rfl]
        exact List.Sublist.cons₂ i
          (rmcInner_filterMap_self modelId p bitfield pr rest (r + 1) (mapSet req i p))
      · exact List.Sublist.cons i (rmcInner_filterMap_self modelId p bitfield pr rest r req)

theorem rmcInner_filterMap_other (modelId p : String) (bitfield : List Nat)
    (pr : Nat) (q : String) (hq : q ≠ p) (is : List Nat) (r : Nat)
    (req : List (Nat × String)) :
    ((rmcInner modelId p bitfield pr is r req).2.filterMap (actionIndexFor q)) = [] := by
  rw [List.filterMap_eq_nil_iff]
  intro a ha
  obtain ⟨i, rfl, -, -, -⟩ := rmcInner_actions modelId p bitfield pr is r req a ha
  simp [actionIndexFor, Ne.symm hq]

theorem rmcPeers_preserves (modelId : String) (sorted : List Nat) :
    ∀ (pbs : PeerBitfields) (req : List (Nat × String)) (k : Nat) (v : String),
      mapLookup req k = some v →
      mapLookup (rmcPeers modelId sorted pbs req).1 k = some v
  | [], _, _, _, h => h
  | (p, bfs) :: rest, req, k, v, h => by
    unfold rmcPeers
    split
    · exact rmcPeers_preserves modelId sorted rest req k v h
    · rename_i bitfield heq
      split
      · exact rmcPeers_preserves modelId sorted rest req k v h
      · exact rmcPeers_preserves modelId sorted rest
          (rmcInner modelId p bitfield (reqCountFor req p) sorted 0 req).1 k v
          (rmcInner_preserves modelId p bitfield (reqCountFor req p) sorted 0 req k v h)

theorem rmcPeers_actions (modelId : String) (sorted : List Nat) :
    ∀ (pbs : PeerBitfields) (req : List (Nat × String)),
      ∀ a ∈ (rmcPeers modelId sorted pbs req).2, ∃ p2 i bfs2 bitfield2,
        a = SwarmAction.request_chunk p2 modelId i ∧ (p2, bfs2) ∈ pbs ∧
        mapLookup bfs2 modelId = some bitfield2 ∧ hasBit bitfield2 i = true ∧
        i ∈ sorted ∧ mapLookup (rmcPeers modelId sorted pbs req).1 i = some p2
  | [], _, a, ha => absurd ha (List.not_mem_nil a)
  | (p, bfs) :: rest, req, a, ha => by
    revert ha
    unfold rmcPeers
    split
    · intro ha
      obtain ⟨p2, i, bfs2, bf2, h1, h2, h3, h4, h5, h6⟩ :=
        rmcPeers_actions modelId sorted rest req a ha
      exact ⟨p2, i, bfs2, bf2, h1, List.mem_cons_of_mem _ h2, h3, h4, h5, h6⟩
    · rename_i bitfield heq
      split
      · intro ha
        obtain ⟨p2, i, bfs2, bf2, h1, h2, h3, h4, h5, h6⟩ :=
          rmcPeers_actions modelId sorted rest req a ha
        exact ⟨p2, i, bfs2, bf2, h1, List.mem_cons_of_mem _ h2, h3, h4, h5, h6⟩
      · intro ha
        replace ha : a ∈
            (rmcInner modelId p bitfield (reqCountFor req p) sorted 0 req).2 ++
            (rmcPeers modelId sorted rest
              (rmcInner modelId p bitfield (reqCountFor req p) sorted 0 req).1).2 := ha
        rcases List.mem_append.1 ha with ha1 | ha2
        · obtain ⟨i, haj, hi, hbit, hlk⟩ := rmcInner_actions modelId p bitfield
            (reqCountFor req p) sorted 0 req a ha1
          exact ⟨p, i, bfs, bitfield, haj, List.mem_cons_self _ _, heq, hbit, hi,
            rmcPeers_preserves modelId sorted rest
              (rmcInner modelId p bitfield (reqCountFor req p) sorted 0 req).1 i p hlk⟩
        · obtain ⟨p2, i, bfs2, bf2, h1, h2, h3, h4, h5, h6⟩ :=
            rmcPeers_actions modelId sorted rest
              (rmcInner modelId p bitfield (reqCountFor req p) sorted 0 req).1 a ha2
          exact ⟨p2, i, bfs2, bf2, h1, List.mem_cons_of_mem _ h2, h3, h4, h5, h6⟩

theorem rmcPeers_filterMap_not_mem (modelId : String) (sorted : List Nat)
    (pbs : PeerBitfields) (req : List (Nat × String)) (q : String)
    (hq : ¬ q ∈ pbs.map Prod.fst) :
    ((rmcPeers modelId sorted pbs req).2.filterMap (actionIndexFor q)) = [] := by
  rw [List.filterMap_eq_nil_iff]
  intro a ha
  obtain ⟨p2, i, bfs2, bf2, rfl, h2, -, -, -, -⟩ :=
    rmcPeers_actions modelId sorted pbs req a ha
  have hmem : p2 ∈ pbs.map Prod.fst := List.mem_map.2 ⟨(p2, bfs2), h2, rfl⟩
  have hne : ¬ p2 = q := fun he => hq (he ▸ hmem)
  simp [actionIndexFor, hne]

theorem rmcPeers_filterMap_sublist (modelId : String) (sorted : List Nat) :
    ∀ (pbs : PeerBitfields) (req : List (Nat × String)) (q : String),
      (pbs.map Prod.fst).Nodup →
      ((rmcPeers modelId sorted pbs req).2.filterMap (actionIndexFor q)).Sublist sorted
  | [], _, _, _ => List.nil_sublist _
  | (p, bfs) :: rest, req, q, hnd => by
    have hnd0 : ¬ p ∈ rest.map Prod.fst ∧ (rest.map Prod.fst).Nodup := by
      simpa [List.nodup_cons] using hnd
    unfold rmcPeers
    split
    · exact rmcPeers_filterMap_sublist modelId sorted rest req q hnd0.2
    · rename_i bitfield heq
      split
      · exact rmcPeers_filterMap_sublist modelId sorted rest req q hnd0.2
      · show (((rmcInner modelId p bitfield (reqCountFor req p) sorted 0 req).2 ++
            (rmcPeers modelId sorted rest
              (rmcInner modelId p bitfield (reqCountFor req p) sorted 0 req).1).2).filterMap
              (actionIndexFor q)).Sublist sorted
        rw [List.filterMap_append]
        by_cases hqp : q = p
        · subst hqp
          rw [rmcPeers_filterMap_not_mem modelId sorted rest _ q hnd0.1,
            List.append_nil]
          exact rmcInner_filterMap_self modelId q bitfield (reqCountFor req q) sorted 0 req
        · rw [rmcInner_filterMap_other modelId p bitfield (reqCountFor req p) q hqp
            sorted 0 req, List.nil_append]
          exact rmcPeers_filterMap_sublist modelId sorted rest
            (rmcInner modelId p bitfield (reqCountFor req p) sorted 0 req).1 q hnd0.2

/-- C2: `requestMoreChunks` on a registered swarm: `needed` is the set
of indices in `[0, total)` neither owned nor requested, and when it is empty
no actions are emitted and the manager is unchanged; every emitted action
is a `request_chunk` addressed to a peer whose stored bitfield for this
content has the requested bit set, for an index in `needed`, and the final
state records `requested[index] = peerId` for it; and, per peer, requests
are issued in ascending rarity order with ties broken by ascending index. -/
theorem requestMoreChunks_spec (mgr : SwarmMgr) (modelId : String)
    (pbs : PeerBitfields) (swarm : Swarm)
    (hs : mapLookup mgr.swarms modelId = some swarm)
    (hnodup : (pbs.map Prod.fst).Nodup) :
    (neededOf swarm = [] → requestMoreChunks mgr modelId pbs = (mgr, [])) ∧
    (∀ a ∈ (requestMoreChunks mgr modelId pbs).2, ∃ p i,
      a = SwarmAction.request_chunk p modelId i ∧
      i ∈ neededOf swarm ∧
      (∃ bfs bitfield, mapLookup pbs p = some bfs ∧
        mapLookup bfs modelId = some bitfield ∧ hasBit bitfield i = true) ∧
      (∃ swarm2,
        mapLookup (requestMoreChunks mgr modelId pbs).1.swarms modelId = some swarm2 ∧
        mapLookup swarm2.requestedChunks i = some p)) ∧
    (∀ p, ((requestMoreChunks mgr modelId pbs).2.filterMap
        (actionIndexFor p)).Pairwise (lexLe (rarityOf pbs modelId))) := by
  have hneeded : (neededOf swarm).Pairwise (· < ·) :=
    List.Pairwise.filter _ (List.pairwise_lt_range _)
  refine ⟨?_, ?_, ?_⟩
  · intro hempty
    simp only [requestMoreChunks, hs]
    rw [if_pos (List.isEmpty_iff.2 hempty)]
  · intro a ha
    by_cases hempty : (neededOf swarm).isEmpty
    · simp only [requestMoreChunks, hs, if_pos hempty] at ha
      exact absurd ha (List.not_mem_nil a)
    · simp only [requestMoreChunks, hs, if_neg hempty] at ha ⊢
      obtain ⟨p2, i, bfs2, bf2, h1, h2, h3, h4, h5, h6⟩ :=
        rmcPeers_actions modelId _ pbs swarm.requestedChunks a ha
      refine ⟨p2, i, h1, ?_, ⟨bfs2, bf2, mapLookup_of_mem_nodup h2 hnodup, h3, h4⟩, ?_⟩
      · rw [List.mem_mergeSort] at h5
        exact h5
      · exact ⟨_, mapLookup_mapSet_self _ _ _, h6⟩
  · intro p
    by_cases hempty : (neededOf swarm).isEmpty
    · simp only [requestMoreChunks, hs, if_pos hempty]
      simp
    · simp only [requestMoreChunks, hs, if_neg hempty]
      refine List.Pairwise.sublist ?_
        (sorted_pairwise_lex (neededOf swarm) (rarityOf pbs modelId) hneeded)
      exact rmcPeers_filterMap_sublist modelId _ pbs swarm.requestedChunks p hnodup

/-- Witness for C2: the per-peer ordering conjunct at a concrete 2-piece
leecher swarm with one peer owning every piece. -/
theorem requestMoreChunks_spec_w :
    ((requestMoreChunks (createSwarm ⟨[]⟩ "m" ⟨"m", 2, 2⟩ [] 0) "m"
        [("P", [("m", [255])])]).2.filterMap (actionIndexFor "P")).Pairwise
      (lexLe (rarityOf [("P", [("m", [255])])] "m")) :=
  (requestMoreChunks_spec (createSwarm ⟨[]⟩ "m" ⟨"m", 2, 2⟩ [] 0) "m"
    [("P", [("m", [255])])]
    ⟨"m", some ⟨"m", 2, 2⟩, [], [], [], 2, some 0⟩
    (by decide) (by decide)).2.2 "P"

end P2PMesh
